import Mathlib

/-!
Shallow embedding of the response decoder of `ollama_client.py` (the
`_parse_cards_json` pipeline and its helper recovery stages), together with
theorems settling the specification claims about it.

Conventions of the embedding:
* Python strings are modelled as `List Char` internally, `String` at the API
  boundary.  Whitespace predicates model the ASCII whitespace characters
  (the inputs in all claims are ASCII; Unicode-only whitespace is out of scope).
* `json.loads` is modelled by `jsonLoads`, a recursive-descent parser over
  `List Char` that follows the Python `json` module: the four JSON whitespace
  characters between tokens, strict rejection of raw control characters and of
  unknown escapes inside strings, `NaN`/`Infinity`/`-Infinity` constants,
  last-binding-wins duplicate object keys, and an "extra data" failure when
  characters remain after the top-level value.  Numbers keep either their
  integer value or their float lexeme; Python float formatting is not
  reproduced (no claim inspects a numeric field).
* Regex operations of the source are modelled by direct character scans that
  implement the leftmost / greedy semantics of each concrete pattern.
* Loops that advance an index are written with an explicit fuel argument
  (always called with fuel larger than the number of possible iterations) so
  that every definition is executable and kernel-reducible.
-/

/-- Python ASCII whitespace, the characters stripped by `str.strip()` and
matched by the regex class `\s` (ASCII range). -/
def isPyWs (c : Char) : Bool :=
  c = ' ' ∨ c = '\t' ∨ c = '\n' ∨ c = '\r' ∨ c = Char.ofNat 11 ∨ c = Char.ofNat 12

/-- The four whitespace characters the Python `json` module skips between tokens. -/
def isJsonWs (c : Char) : Bool :=
  c = ' ' ∨ c = '\t' ∨ c = '\n' ∨ c = '\r'

/-- ASCII lowercasing of one character, as `str.lower()` acts on ASCII. -/
def asciiLower (c : Char) : Char :=
  if 'A' ≤ c ∧ c ≤ 'Z' then Char.ofNat (c.toNat + 32) else c

/-- Full-string ASCII lowercasing, modelling `str.lower()` on ASCII text. -/
def asciiLowerStr (s : String) : String := String.mk (s.data.map asciiLower)

/-- Drop trailing characters satisfying `p` (the right half of `str.strip()`). -/
def dropTrailing (p : Char → Bool) (l : List Char) : List Char :=
  (l.reverse.dropWhile p).reverse

/-- Model of Python `str.strip()` on a character list. -/
def pyStripL (l : List Char) : List Char :=
  dropTrailing isPyWs (l.dropWhile isPyWs)

/-- Model of Python `str.strip()` on a `String`. -/
def pyStripS (s : String) : String := String.mk (pyStripL s.data)

/-- The backtick character (written by code point to keep source plain). -/
def btick : Char := Char.ofNat 96

/-- True when the list begins with three consecutive backticks. -/
def startsTk : List Char → Bool
  | c :: d :: e :: _ => c = btick ∧ d = btick ∧ e = btick
  | _ => false

/-- Split at the first triple-backtick occurrence: returns the characters
before it and the characters after it, or `none` when there is none. -/
def splitAtTriple : List Char → Option (List Char × List Char)
  | [] => none
  | c :: rest =>
    if startsTk (c :: rest) then some ([], rest.drop 2)
    else
      match splitAtTriple rest with
      | some (a, b) => some (c :: a, b)
      | none => none

/-- Whether a triple-backtick sequence occurs anywhere in the list. -/
def hasTriple (l : List Char) : Bool := (splitAtTriple l).isSome

/-- Drop a literal `json` tag directly after the opening fence, as the
`(?:json)?` group of the fence regex consumes it. -/
def dropJsonTag : List Char → List Char
  | 'j' :: 's' :: 'o' :: 'n' :: r => r
  | l => l

/-- Capture group of the fence regex search
(triple backtick, optional `json` tag, lazy body, triple backtick):
the body between the first fence and the next one, trimmed of the whitespace
absorbed by the greedy `\s*` on either side of the lazy group.  `none` when the
pattern does not match. -/
def fenceGroup1 (l : List Char) : Option (List Char) :=
  match splitAtTriple l with
  | none => none
  | some (_, rest) =>
    let body := (dropJsonTag rest).dropWhile isPyWs
    match splitAtTriple body with
    | none => none
    | some (mid, _) => some (dropTrailing isPyWs mid)

/-- The working text of `_parse_cards_json`: the stripped input, replaced by the
stripped inner content of a code fence when the fence regex matches. -/
def fenceText (l : List Char) : List Char :=
  let t := pyStripL l
  match fenceGroup1 t with
  | some g => pyStripL g
  | none => t

/-- Values produced by the model of `json.loads` (plus, for uniformity, the
dict-shaped results of the two heuristic recovery stages). -/
inductive JValue where
  | null
  | bool (b : Bool)
  | numInt (n : Int)
  | numFloat (lex : String)
  | str (s : String)
  | arr (items : List JValue)
  | obj (entries : List (String × JValue))

/-- Decimal digit test used by the number grammar. -/
def isDig (c : Char) : Bool := '0' ≤ c ∧ c ≤ '9'

/-- Take a maximal run of decimal digits. -/
def takeDigits : List Char → List Char × List Char
  | c :: cs =>
    if isDig c then
      let (ds, r) := takeDigits cs
      (c :: ds, r)
    else ([], c :: cs)
  | [] => ([], [])

/-- Numeric value of a digit run. -/
def digitsVal (ds : List Char) : Nat :=
  ds.foldl (fun acc c => acc * 10 + (c.toNat - '0'.toNat)) 0

/-- Value of one hexadecimal digit, if any. -/
def hexVal (c : Char) : Option Nat :=
  if '0' ≤ c ∧ c ≤ '9' then some (c.toNat - '0'.toNat)
  else if 'a' ≤ c ∧ c ≤ 'f' then some (c.toNat - 'a'.toNat + 10)
  else if 'A' ≤ c ∧ c ≤ 'F' then some (c.toNat - 'A'.toNat + 10)
  else none

/-- Value of four hexadecimal digits, if all are valid. -/
def hexQuad (a b c d : Char) : Option Nat :=
  match hexVal a, hexVal b, hexVal c, hexVal d with
  | some va, some vb, some vc, some vd => some (((va * 16 + vb) * 16 + vc) * 16 + vd)
  | _, _, _, _ => none

/-- JSON string body after the opening quote, following the Python module:
raw control characters below 0x20 are rejected, only the eight standard
escapes and `\uXXXX` are accepted, and a high/low surrogate escape pair is
combined.  (A lone surrogate escape, which Python would keep as an unpaired
surrogate, maps to code point 0 here; no claim involves one.) -/
def jStringAux : Nat → List Char → List Char → Option (String × List Char)
  | 0, _, _ => none
  | _ + 1, acc, '"' :: rest => some (String.mk acc.reverse, rest)
  | fuel + 1, acc, '\\' :: 'u' :: a :: b :: c :: d :: rest =>
    match hexQuad a b c d with
    | none => none
    | some n =>
      if 0xD800 ≤ n ∧ n ≤ 0xDBFF then
        match rest with
        | '\\' :: 'u' :: a2 :: b2 :: c2 :: d2 :: rest2 =>
          match hexQuad a2 b2 c2 d2 with
          | some m =>
            if 0xDC00 ≤ m ∧ m ≤ 0xDFFF then
              jStringAux fuel
                (Char.ofNat (0x10000 + (n - 0xD800) * 0x400 + (m - 0xDC00)) :: acc) rest2
            else jStringAux fuel (Char.ofNat 0 :: acc) rest
          | none => jStringAux fuel (Char.ofNat 0 :: acc) rest
        | _ => jStringAux fuel (Char.ofNat 0 :: acc) rest
      else jStringAux fuel (Char.ofNat n :: acc) rest
  | fuel + 1, acc, '\\' :: e :: rest =>
    if e = '"' then jStringAux fuel ('"' :: acc) rest
    else if e = '\\' then jStringAux fuel ('\\' :: acc) rest
    else if e = '/' then jStringAux fuel ('/' :: acc) rest
    else if e = 'b' then jStringAux fuel (Char.ofNat 8 :: acc) rest
    else if e = 'f' then jStringAux fuel (Char.ofNat 12 :: acc) rest
    else if e = 'n' then jStringAux fuel ('\n' :: acc) rest
    else if e = 'r' then jStringAux fuel ('\r' :: acc) rest
    else if e = 't' then jStringAux fuel ('\t' :: acc) rest
    else none
  | fuel + 1, acc, c :: rest =>
    if c.toNat < 0x20 then none else jStringAux fuel (c :: acc) rest
  | _ + 1, _, [] => none

/-- JSON string starting at the opening quote (fuel bounds the body length). -/
def jString (l : List Char) : Option (String × List Char) :=
  match l with
  | '"' :: rest => jStringAux (rest.length + 1) [] rest
  | _ => none

/-- JSON number at the current position, per the strict grammar of the Python
module (`-?(0|[1-9][0-9]*)(\.[0-9]+)?([eE][+-]?[0-9]+)?`): an integer value
when there is no fraction or exponent, otherwise the float's lexeme. -/
def jNumber (l : List Char) : Option (JValue × List Char) :=
  let (neg, l1) := match l with
    | '-' :: r => (true, r)
    | _ => (false, l)
  match l1 with
  | c :: cs =>
    if ¬ isDig c then none
    else
      let (intDs, l2) :=
        if c = '0' then ([c], cs)
        else
          let (ds, r) := takeDigits cs
          (c :: ds, r)
      let (fracDs, l3) :=
        match l2 with
        | '.' :: r =>
          match takeDigits r with
          | ([], _) => ([], l2)
          | (ds, r') => (ds, r')
        | _ => ([], l2)
      let (expDs, l4) :=
        match l3 with
        | 'e' :: r | 'E' :: r =>
          let (sgn, r1) : List Char × List Char :=
            match r with
            | '+' :: r' => (['+'], r')
            | '-' :: r' => (['-'], r')
            | _ => ([], r)
          match takeDigits r1 with
          | ([], _) => ([], l3)
          | (ds, r2) => (sgn ++ ds, r2)
        | _ => ([], l3)
      if fracDs = [] ∧ expDs = [] then
        some (.numInt ((if neg then -1 else 1) * (digitsVal intDs : Int)), l4)
      else
        let lex := (if neg then ['-'] else []) ++ intDs ++
          (if fracDs = [] then [] else '.' :: fracDs) ++
          (if expDs = [] then [] else 'e' :: expDs)
        some (.numFloat (String.mk lex), l4)
  | [] => none

/-- Skip JSON inter-token whitespace. -/
def skipJsonWs (l : List Char) : List Char := l.dropWhile isJsonWs

mutual

/-- One JSON value at the current position (fuel-driven; the wrapper passes
fuel exceeding any possible chain of recursive calls). -/
def jVal : Nat → List Char → Option (JValue × List Char)
  | 0, _ => none
  | fuel + 1, l =>
    match skipJsonWs l with
    | 'n' :: 'u' :: 'l' :: 'l' :: r => some (.null, r)
    | 't' :: 'r' :: 'u' :: 'e' :: r => some (.bool true, r)
    | 'f' :: 'a' :: 'l' :: 's' :: 'e' :: r => some (.bool false, r)
    | 'N' :: 'a' :: 'N' :: r => some (.numFloat "nan", r)
    | 'I' :: 'n' :: 'f' :: 'i' :: 'n' :: 'i' :: 't' :: 'y' :: r => some (.numFloat "inf", r)
    | '-' :: 'I' :: 'n' :: 'f' :: 'i' :: 'n' :: 'i' :: 't' :: 'y' :: r =>
      some (.numFloat "-inf", r)
    | '"' :: r =>
      match jStringAux (r.length + 1) [] r with
      | some (s, r') => some (.str s, r')
      | none => none
    | '[' :: r =>
      match skipJsonWs r with
      | ']' :: r' => some (.arr [], r')
      | r' =>
        match jElems fuel r' with
        | some (es, r'') => some (.arr es, r'')
        | none => none
    | '{' :: r =>
      match skipJsonWs r with
      | '}' :: r' => some (.obj [], r')
      | r' =>
        match jMembers fuel r' with
        | some (ms, r'') => some (.obj ms, r'')
        | none => none
    | c :: rest =>
      if c = '-' ∨ isDig c then jNumber (c :: rest) else none
    | [] => none

/-- One-or-more comma-separated array elements, then the closing bracket. -/
def jElems : Nat → List Char → Option (List JValue × List Char)
  | 0, _ => none
  | fuel + 1, l =>
    match jVal fuel l with
    | none => none
    | some (v, r) =>
      match skipJsonWs r with
      | ',' :: r' =>
        match jElems fuel r' with
        | some (vs, r'') => some (v :: vs, r'')
        | none => none
      | ']' :: r' => some ([v], r')
      | _ => none

/-- One-or-more `"key": value` object members, then the closing brace. -/
def jMembers : Nat → List Char → Option (List (String × JValue) × List Char)
  | 0, _ => none
  | fuel + 1, l =>
    match skipJsonWs l with
    | '"' :: r =>
      match jStringAux (r.length + 1) [] r with
      | none => none
      | some (k, r1) =>
        match skipJsonWs r1 with
        | ':' :: r2 =>
          match jVal fuel r2 with
          | none => none
          | some (v, r3) =>
            match skipJsonWs r3 with
            | ',' :: r4 =>
              match jMembers fuel r4 with
              | some (ms, r5) => some ((k, v) :: ms, r5)
              | none => none
            | '}' :: r4 => some ([(k, v)], r4)
            | _ => none
        | _ => none
    | _ => none

end

/-- Model of `json.loads` on a character list: parse one value, then require
only whitespace to remain (otherwise Python raises "Extra data"). -/
def jsonLoadsL (l : List Char) : Option JValue :=
  match jVal (2 * l.length + 4) l with
  | some (v, rest) => if skipJsonWs rest = [] then some v else none
  | none => none

/-- Python dict lookup over the parse-ordered bindings: with duplicate keys the
later binding wins, as `dict(pairs)` keeps the last value. -/
def jget : List (String × JValue) → String → Option JValue
  | [], _ => none
  | (k, v) :: rest, key =>
    match jget rest key with
    | some r => some r
    | none => if k = key then some v else none

/-- The single-quote character (written by code point to keep source plain). -/
def squote : Char := Char.ofNat 39

/-- Escapes of one character inside a Python `repr` string quoted by `q`. -/
def pyReprChar (q c : Char) : List Char :=
  if c = '\\' then ['\\', '\\']
  else if c = q then ['\\', q]
  else if c = '\n' then ['\\', 'n']
  else if c = '\r' then ['\\', 'r']
  else if c = '\t' then ['\\', 't']
  else [c]

/-- Python `repr` of a string: single-quoted unless the string contains a
single quote and no double quote.  (Exotic control characters are left as-is;
no claim inspects them.) -/
def pyReprStr (s : String) : String :=
  let q := if s.data.contains squote ∧ ¬ s.data.contains '"' then '"' else squote
  String.mk (q :: (s.data.map (pyReprChar q)).flatten ++ [q])

mutual

/-- Python `repr` of a decoded value, used when `str()` is applied to a
non-string field value (lists and dicts render with single-quoted strings). -/
def pyRepr : JValue → String
  | .null => "None"
  | .bool true => "True"
  | .bool false => "False"
  | .numInt n => toString n
  | .numFloat lex => lex
  | .str s => pyReprStr s
  | .arr items => "[" ++ pyReprItems items ++ "]"
  | .obj entries => "\x7b" ++ pyReprPairs entries ++ "\x7d"

/-- Comma-separated reprs of list items. -/
def pyReprItems : List JValue → String
  | [] => ""
  | [v] => pyRepr v
  | v :: rest => pyRepr v ++ ", " ++ pyReprItems rest

/-- Comma-separated reprs of dict pairs. -/
def pyReprPairs : List (String × JValue) → String
  | [] => ""
  | [(k, v)] => pyReprStr k ++ ": " ++ pyRepr v
  | (k, v) :: rest => pyReprStr k ++ ": " ++ pyRepr v ++ ", " ++ pyReprPairs rest

end

/-- Python `str()` of a decoded value (the identity on strings). -/
def pyStr : JValue → String
  | .str s => s
  | v => pyRepr v

/-- The two card styles accepted by the decoder. -/
inductive CardStyle where
  | eli5_technical
  | code
deriving DecidableEq

/-- A normalized card: the association list the decoder emits for one record,
always carrying exactly the five keys in this order. -/
abbrev Card := List (String × String)

/-- The `item.get(k1, item.get(k2, ""))` chain followed by `str()`. -/
def getPair (kvs : List (String × JValue)) (k1 k2 : String) : String :=
  match jget kvs k1 with
  | some v => pyStr v
  | none =>
    match jget kvs k2 with
    | some v => pyStr v
    | none => ""

/-- The `item.get("eli5", item.get("elI5", item.get("ELI5", "")))` chain. -/
def getEli5 (kvs : List (String × JValue)) : String :=
  match jget kvs "eli5" with
  | some v => pyStr v
  | none =>
    match jget kvs "elI5" with
    | some v => pyStr v
    | none =>
      match jget kvs "ELI5" with
      | some v => pyStr v
      | none => ""

/-- Normalization of one raw record into the unified five-key shape, with every
value stripped, exactly as the final loop of `_parse_cards_json` builds it. -/
def mkCard (kvs : List (String × JValue)) : Card :=
  [("question", pyStripS (getPair kvs "question" "Question")),
   ("code", pyStripS (getPair kvs "code" "Code")),
   ("eli5", pyStripS (getEli5 kvs)),
   ("technical", pyStripS (getPair kvs "technical" "Technical")),
   ("answer", pyStripS (getPair kvs "answer" "Answer"))]

/-- The normalization loop: non-dict items are dropped silently. -/
def normalizeParsed (items : List JValue) : List Card :=
  items.filterMap fun item =>
    match item with
    | .obj kvs => some (mkCard kvs)
    | _ => none

/-- The `if not isinstance(parsed, list): parsed = [parsed]` wrapping step. -/
def ensureList : JValue → List JValue
  | .arr l => l
  | v => [v]

/-- The substring from the first `[` to the last `]`, when the last `]` comes
strictly after the first `[` (the bracket-scan common to several stages). -/
def bracketSlice (l : List Char) : Option (List Char) :=
  match l.findIdx? (fun c => c = '['), l.reverse.findIdx? (fun c => c = ']') with
  | some s, some rIdx =>
    let e := l.length - 1 - rIdx
    if s < e then some ((l.drop s).take (e + 1 - s)) else none
  | _, _ => none

/-- Match a literal `"[Qq]uestion"` (quotes included), returning the remainder. -/
def qKeyQuoted (l : List Char) : Option (List Char) :=
  match l with
  | '"' :: q :: 'u' :: 'e' :: 's' :: 't' :: 'i' :: 'o' :: 'n' :: '"' :: r =>
    if q = 'Q' ∨ q = 'q' then some r else none
  | _ => none

/-- Match `"[Qq]uestion"\s*:`, returning the remainder after the colon. -/
def qKeyColonRest (l : List Char) : Option (List Char) :=
  match qKeyQuoted l with
  | some r =>
    match r.dropWhile isPyWs with
    | ':' :: r2 => some r2
    | _ => none
  | none => none

/-- Whether `"[Qq]uestion"\s*:` occurs anywhere (the gate of the repair stage). -/
def hasQuestionColon : List Char → Bool
  | [] => false
  | c :: rest => (qKeyColonRest (c :: rest)).isSome ∨ hasQuestionColon rest

/-- First substitution of the repair stage: the first occurrence of
`\[\s*"[Qq]uestion"` becomes `[ {"question"`. -/
def sub1OpenQuestion : List Char → List Char
  | [] => []
  | c :: rest =>
    if c = '[' then
      match qKeyQuoted (rest.dropWhile isPyWs) with
      | some r => "[ \x7b\"question\"".data ++ r
      | none => c :: sub1OpenQuestion rest
    else c :: sub1OpenQuestion rest

/-- Second substitution of the repair stage: every occurrence of
`(?:,\s*|[\n\r]+\s*)"[Qq]uestion"\s*:` becomes `}, { "question":`
(leftmost, non-overlapping, scanning resumes after each replacement). -/
def sub2Boundary : Nat → List Char → List Char
  | 0, l => l
  | fuel + 1, l =>
    match l with
    | [] => []
    | c :: rest =>
      if c = ',' then
        match qKeyColonRest (rest.dropWhile isPyWs) with
        | some r => "\x7d, \x7b \"question\":".data ++ sub2Boundary fuel r
        | none => c :: sub2Boundary fuel rest
      else if c = '\n' ∨ c = '\r' then
        match qKeyColonRest ((c :: rest).dropWhile isPyWs) with
        | some r => "\x7d, \x7b \"question\":".data ++ sub2Boundary fuel r
        | none => c :: sub2Boundary fuel rest
      else c :: sub2Boundary fuel rest

/-- Third substitution of the repair stage: `(\s*)\](\s*)$` becomes
`\1 } \2]`, inserting a closing brace before the final bracket. -/
def sub3CloseBrace (l : List Char) : List Char :=
  let r := l.reverse
  let w2 := r.takeWhile isPyWs
  match r.drop w2.length with
  | ']' :: r2 =>
    let w1 := r2.takeWhile isPyWs
    let body := r2.drop w1.length
    body.reverse ++ w1.reverse ++ " \x7d ".data ++ w2.reverse ++ [']']
  | _ => l

/-- Model of `_repair_array_of_objects`: strip, require a leading `[`, append a
missing trailing `]`, require some `"question":` key, then run the three
substitutions. -/
def repair_array_of_objects (s0 : List Char) : Option (List Char) :=
  let s := pyStripL s0
  match s with
  | [] => none
  | c :: rest =>
    if ¬ (c = '[') then none
    else
      let s1 := c :: rest
      let s2 := if s1.getLast? = some ']' then s1 else s1 ++ [']']
      if hasQuestionColon s2 then
        let t1 := sub1OpenQuestion s2
        some (sub3CloseBrace (sub2Boundary (t1.length + 1) t1))
      else none

/-- After a `]`: match `\s*,?\s*\[`, returning the remainder after the `[`. -/
def closeOpenGap (l : List Char) : Option (List Char) :=
  match l.dropWhile isPyWs with
  | ',' :: r2 =>
    (match r2.dropWhile isPyWs with
     | '[' :: r3 => some r3
     | _ => none)
  | '[' :: r3 => some r3
  | _ => none

/-- The merge substitution of the flat stage: every `\]\s*,?\s*\[` becomes
`, ` (leftmost, non-overlapping). -/
def mergeArraysAux : Nat → List Char → List Char
  | 0, l => l
  | fuel + 1, l =>
    match l with
    | [] => []
    | c :: rest =>
      if c = ']' then
        match closeOpenGap rest with
        | some r => ',' :: ' ' :: mergeArraysAux fuel r
        | none => c :: mergeArraysAux fuel rest
      else c :: mergeArraysAux fuel rest

/-- In-progress record of the two heuristic stages: question, eli5, technical. -/
abbrev Rec3 := String × String × String

/-- Whether an in-progress record has a non-empty question or technical field
(Python truthiness of `current.get("question") or current.get("technical")`). -/
def recHasContent (c : Rec3) : Bool := c.1 ≠ "" ∨ c.2.2 ≠ ""

/-- Assign a value to the named field of an in-progress record. -/
def flatAssign (k : String) (w : String) (c : Rec3) : Rec3 :=
  if k = "question" then (w, c.2.1, c.2.2)
  else if k = "eli5" then (c.1, w, c.2.2)
  else (c.1, c.2.1, w)

/-- Convert an in-progress record to a dict-shaped value (insertion order of
the Python dict literal: question, eli5, technical). -/
def toRecObj (c : Rec3) : JValue :=
  .obj [("question", .str c.1), ("eli5", .str c.2.1), ("technical", .str c.2.2)]

/-- The pairwise walk of `_parse_flat_key_value_array` over the merged flat
list: a recognized key (any case) consumes the following element as its value;
`question` closes the current record (when it has content) and starts a fresh
one; a key in final position breaks out of the loop. -/
def flatWalk : List JValue → Option Rec3 → List Rec3 → List Rec3
  | [], cur, cards =>
    (match cur with
     | some c => if recHasContent c then cards ++ [c] else cards
     | none => cards)
  | v :: rest, cur, cards =>
    match v with
    | .str sv =>
      let k := asciiLowerStr sv
      if k = "question" ∨ k = "eli5" ∨ k = "technical" then
        match rest with
        | [] =>
          (match cur with
           | some c => if recHasContent c then cards ++ [c] else cards
           | none => cards)
        | w :: rest2 =>
          let st :=
            if k = "question" then
              (some (("", "", "") : Rec3),
               match cur with
               | some c => if recHasContent c then cards ++ [c] else cards
               | none => cards)
            else
              match cur with
              | none => (some (("", "", "") : Rec3), cards)
              | some c => (some c, cards)
          let cur2 : Option Rec3 :=
            match w, st.1 with
            | .str wv, some c => some (flatAssign k wv c)
            | _, c => c
          flatWalk rest2 cur2 st.2
      else flatWalk rest cur cards
    | _ => flatWalk rest cur cards

/-- Model of `_parse_flat_key_value_array`: merge adjacent arrays, bracket-scan,
parse strictly, then walk the flat list pairwise. -/
def parse_flat_key_value_array (text : List Char) : Option (List JValue) :=
  let merged := mergeArraysAux (text.length + 1) text
  match bracketSlice merged with
  | none => none
  | some sub =>
    match jsonLoadsL sub with
    | some (.arr flat) =>
      if flat.isEmpty then none
      else
        let cards := flatWalk flat none []
        if cards.isEmpty then none else some (cards.map toRecObj)
    | _ => none

/-- Index of the closing quote of the quoted value starting after index `i`,
honoring backslash escapes, or `none` when the string ends first. -/
def extractClose (s : List Char) : Nat → Nat → Option Nat
  | 0, _ => none
  | fuel + 1, i =>
    match s.get? i with
    | none => none
    | some c =>
      if c = '\\' ∧ i + 1 < s.length then extractClose s fuel (i + 2)
      else if c = '"' then some i
      else extractClose s fuel (i + 1)

/-- Replace every non-overlapping two-character sequence `p1 p2` by `r`. -/
def replaceTwo (p1 p2 r : Char) : List Char → List Char
  | [] => []
  | [c] => [c]
  | a :: b :: rest =>
    if a = p1 ∧ b = p2 then r :: replaceTwo p1 p2 r rest
    else a :: replaceTwo p1 p2 r (b :: rest)

/-- Model of `_extract_quoted_value`: `(value, position after the closing
quote)` on success, `(none, after_open_quote)` on failure; the raw slice has
`\"` and then `\\` unescaped, in that order. -/
def extract_quoted_value (s : List Char) (afterOpenQuote : Nat) : Option String × Nat :=
  if ¬ (s.get? afterOpenQuote = some '"') then (none, afterOpenQuote)
  else
    match extractClose s (s.length + 1) (afterOpenQuote + 1) with
    | some i =>
      let raw := (s.drop (afterOpenQuote + 1)).take (i - (afterOpenQuote + 1))
      (some (String.mk (replaceTwo '\\' '\\' '\\' (replaceTwo '\\' '"' '"' raw))), i + 1)
    | none => (none, afterOpenQuote)

/-- Case-insensitive keyword right after an opening quote: returns the
lowercased keyword and its length. -/
def matchKeyword (l : List Char) : Option (String × Nat) :=
  if (l.take 8).map asciiLower = "question".data then some ("question", 8)
  else if (l.take 4).map asciiLower = "eli5".data then some ("eli5", 4)
  else if (l.take 9).map asciiLower = "technical".data then some ("technical", 9)
  else none

/-- Match of the key pattern
`"(?:question|Question|eli5|elI5|ELI5|technical|Technical)"\s*:\s*"`
(IGNORECASE) at index `j`: the lowercased key name and the match-end index
(one past the opening quote of the value). -/
def kvMatchAt (s : List Char) (j : Nat) : Option (String × Nat) :=
  match s.drop j with
  | '"' :: t1 =>
    match matchKeyword t1 with
    | none => none
    | some (key, klen) =>
      match t1.drop klen with
      | '"' :: t2 =>
        match t2.drop (t2.takeWhile isPyWs).length with
        | ':' :: t3 =>
          match t3.drop (t3.takeWhile isPyWs).length with
          | '"' :: _ =>
            some (key,
              j + 1 + klen + 1 + (t2.takeWhile isPyWs).length + 1 +
                (t3.takeWhile isPyWs).length + 1)
          | _ => none
        | _ => none
      | _ => none
  | _ => none

/-- Leftmost match of the key pattern at an index at or after `j`. -/
def kvSearchAux (s : List Char) : Nat → Nat → Option (String × Nat)
  | 0, _ => none
  | fuel + 1, j =>
    if s.length ≤ j then none
    else
      match kvMatchAt s j with
      | some r => some r
      | none => kvSearchAux s fuel (j + 1)

/-- The `key_pattern.search(s, pos)` of the text-scan stage. -/
def kvSearch (s : List Char) (pos : Nat) : Option (String × Nat) :=
  kvSearchAux s (s.length + 1) pos

/-- Overwrite the `eli5` field of the last record (`cards[-1]["eli5"]`). -/
def setEli5Last : List Rec3 → String → List Rec3
  | [], _ => []
  | [c], v => [(c.1, v, c.2.2)]
  | c :: rest, v => c :: setEli5Last rest v

/-- Overwrite the `technical` field of the last record. -/
def setTechLast : List Rec3 → String → List Rec3
  | [], _ => []
  | [c], v => [(c.1, c.2.2, v)]
  | c :: rest, v => c :: setTechLast rest v

/-- The scanning loop of `_parse_array_like_key_value_text`: find the next key
pattern, extract its quoted value, route it (a `question` key starts a new
record; `eli5`/`technical` overwrite the last record's field when one exists),
and resume after the consumed value (or after the failed match). -/
def scanLoopAux (s : List Char) : Nat → Nat → List Rec3 → List Rec3
  | 0, _, cards => cards
  | fuel + 1, pos, cards =>
    if pos < s.length then
      match kvSearch s pos with
      | none => cards
      | some (key, mEnd) =>
        match extract_quoted_value s (mEnd - 1) with
        | (none, _) => scanLoopAux s fuel mEnd cards
        | (some v, after) =>
          let cards' :=
            if key = "question" then cards ++ [((v, "", "") : Rec3)]
            else if key = "eli5" ∧ ¬ cards.isEmpty then setEli5Last cards v
            else if key = "technical" ∧ ¬ cards.isEmpty then setTechLast cards v
            else cards
          scanLoopAux s fuel after cards'
    else cards

/-- Model of `_parse_array_like_key_value_text`: bracket-scan, run the key/value
text scan, and keep the result only when some record has a non-empty
`technical` or `question`. -/
def parse_array_like_key_value_text (text : List Char) : Option (List JValue) :=
  match bracketSlice text with
  | none => none
  | some s =>
    let cards := scanLoopAux s (s.length + 1) 0 []
    if ¬ cards.isEmpty ∧ cards.any (fun c => c.2.2 ≠ "" ∨ c.1 ≠ "") then
      some (cards.map toRecObj)
    else none

/-- The two late recovery stages, run whenever `parsed` is still Python `None`
after the structural attempts (`eli5_technical` style only): the flat
key-value merge, then the key/value text scan. -/
def lateStages (text : List Char) (style : CardStyle) : Option (List JValue) :=
  if style = CardStyle.eli5_technical then
    match parse_flat_key_value_array text with
    | some items => some items
    | none => parse_array_like_key_value_text text
  else none

/-- The stage cascade of `_parse_cards_json` on the working text.  `parsed`
mirrors the Python variable: it stays `None` both when a parse attempt throws
and when a parse succeeds returning JSON `null` (Python `None`), because the
code re-checks `parsed is None` after the structural attempts — so a bare
`null` input falls through to the late stages and can still raise.  The
bracket-scan and repair attempts run only when the strict parse throws (they
live in its `except` branch). -/
def stagesParse (text : List Char) (style : CardStyle) : Option (List JValue) :=
  let parsed : Option JValue :=
    match jsonLoadsL text with
    | some v => some v
    | none =>
      match bracketSlice text with
      | some sub =>
        match jsonLoadsL sub with
        | some v => some v
        | none =>
          if style = CardStyle.eli5_technical then
            match repair_array_of_objects sub with
            | some rep => jsonLoadsL rep
            | none => none
          else none
      | none => none
  match parsed with
  | some JValue.null => lateStages text style
  | some v => some (ensureList v)
  | none => lateStages text style

/-- Newline-to-space folding applied to the diagnostic snippet. -/
def nlToSpace (c : Char) : Char := if c = '\n' then ' ' else c

/-- The diagnostic snippet of the failure message: the first 500 characters of
the original input (with a `...` marker when it was longer), newlines replaced
by spaces. -/
def snippetOf (raw : String) : String :=
  let d := raw.data
  String.mk ((if d.length > 500 then d.take 500 ++ "...".data else d).map nlToSpace)

/-- Model of `_parse_cards_json`: strip and fence-strip the input, run the
stage cascade, normalize every resulting record, or fail carrying the
diagnostic snippet. -/
def parse_cards_json (raw : String) (style : CardStyle) : Except String (List Card) :=
  match stagesParse (fenceText raw.data) style with
  | some items => Except.ok (normalizeParsed items)
  | none => Except.error (snippetOf raw)

/-- Whether a decode result is the `DecodeError` outcome. -/
def decodeFails : Except String (List Card) → Bool
  | Except.error _ => true
  | Except.ok _ => false

/-- A raw record carrying exactly the requested style's field set. -/
def styleObj : CardStyle → String × String × String → JValue
  | CardStyle.eli5_technical, (q, e, t) =>
    JValue.obj [("question", JValue.str q), ("eli5", JValue.str e),
      ("technical", JValue.str t)]
  | CardStyle.code, (q, c, a) =>
    JValue.obj [("question", JValue.str q), ("code", JValue.str c),
      ("answer", JValue.str a)]

/-- The record the decoder must produce for such a raw record: all five keys,
the style's fields trimmed, the others empty. -/
def styleCard : CardStyle → String × String × String → Card
  | CardStyle.eli5_technical, (q, e, t) =>
    [("question", pyStripS q), ("code", ""), ("eli5", pyStripS e),
     ("technical", pyStripS t), ("answer", "")]
  | CardStyle.code, (q, c, a) =>
    [("question", pyStripS q), ("code", pyStripS c), ("eli5", ""),
     ("technical", ""), ("answer", pyStripS a)]

/-- Decode results compared as the spec's output model: equal record sequences
on success, and failure matched with failure (the failure's diagnostic snippet
cites the respective original input by design, so it is not part of the
comparison). -/
def decodeResultsAgree : Except String (List Card) → Except String (List Card) → Prop
  | Except.ok a, Except.ok b => a = b
  | Except.error _, Except.error _ => True
  | _, _ => False

set_option maxRecDepth 4000

deriving instance DecidableEq for Except

/-! ### Claim theorems: concrete instances -/

/-- C1, counterexample: on the input `[]` (a well-formed empty array) no stage
yields any record — let alone one with a non-empty `question` or
`technical`/`answer` field — yet the decoder returns an (empty) record
sequence instead of raising, so the claimed "exactly when" equivalence fails. -/
theorem c1_counterexample :
    parse_cards_json "[]" CardStyle.eli5_technical = Except.ok [] := by rfl

/-- C4: for `eli5_technical` style, the braceless key-value array
`["question": "Q1", "eli5": "E1", "technical": "T1", "question": "Q2",
"eli5": "E2", "technical": "T2"]` decodes into exactly two records, each
`"question"` key starting a new record boundary. -/
theorem c4_braceless_two_records :
    parse_cards_json
      "[\"question\": \"Q1\", \"eli5\": \"E1\", \"technical\": \"T1\", \"question\": \"Q2\", \"eli5\": \"E2\", \"technical\": \"T2\"]"
      CardStyle.eli5_technical =
    Except.ok
      [[("question", "Q1"), ("code", ""), ("eli5", "E1"), ("technical", "T1"), ("answer", "")],
       [("question", "Q2"), ("code", ""), ("eli5", "E2"), ("technical", "T2"), ("answer", "")]] := by
  rfl

/-- C5: for `eli5_technical` style, two adjacent flat arrays of alternating key
and value strings are merged at the `]...[` boundary and decode into exactly
two records with fields assigned from the value following each recognized key. -/
theorem c5_flat_arrays_two_records :
    parse_cards_json
      "[\"question\",\"Q1\",\"eli5\",\"E1\",\"technical\",\"T1\"], [\"question\",\"Q2\",\"eli5\",\"E2\",\"technical\",\"T2\"]"
      CardStyle.eli5_technical =
    Except.ok
      [[("question", "Q1"), ("code", ""), ("eli5", "E1"), ("technical", "T1"), ("answer", "")],
       [("question", "Q2"), ("code", ""), ("eli5", "E2"), ("technical", "T2"), ("answer", "")]] := by
  rfl

/-- C7, counterexample: key names are not case-insensitive in general — the
case variant `Eli5` of the recognized key `eli5` changes the decode result,
because normalization only accepts the exact spellings `eli5`/`elI5`/`ELI5`. -/
theorem c7_counterexample :
    parse_cards_json "\x7b\"Eli5\": \"E\"\x7d" CardStyle.eli5_technical ≠
      parse_cards_json "\x7b\"eli5\": \"E\"\x7d" CardStyle.eli5_technical := by
  decide

/-- C7, amended: the specific case variants the decoder does accept behave as
claimed — `{"Question": "Q", "ELI5": "E", "Technical": "T"}` decodes to
exactly the same record sequence as the all-lowercase form. -/
theorem c7_amended_variants_equal :
    parse_cards_json "\x7b\"Question\": \"Q\", \"ELI5\": \"E\", \"Technical\": \"T\"\x7d"
        CardStyle.eli5_technical =
      parse_cards_json "\x7b\"question\": \"Q\", \"eli5\": \"E\", \"technical\": \"T\"\x7d"
        CardStyle.eli5_technical := by
  rfl

/-- C9, counterexample: on an unparseable input of 501 characters the carried
snippet is the first 500 characters plus a `...` marker — 503 characters, which
exceeds the claimed 500-character bound. -/
theorem c9_counterexample :
    parse_cards_json (String.mk (List.replicate 501 'x')) CardStyle.code =
        Except.error (String.mk (List.replicate 500 'x' ++ "...".data)) ∧
      (String.mk (List.replicate 500 'x' ++ "...".data)).length = 503 := by
  constructor
  · rfl
  · rfl

/-! ### C10: the text-scan loop makes strict forward progress -/

/-- A key-pattern match at index `j` ends strictly after `j`. -/
theorem kvMatchAt_lt (s : List Char) (j : Nat) (k : String) (mEnd : Nat)
    (h : kvMatchAt s j = some (k, mEnd)) : j < mEnd := by
  unfold kvMatchAt at h
  repeat' split at h
  all_goals simp at h
  obtain ⟨h1, h2⟩ := h
  omega

/-- A successful search from `j` returns a match end strictly after `j`. -/
theorem kvSearchAux_lt (s : List Char) (k : String) (mEnd : Nat) :
    ∀ fuel j, kvSearchAux s fuel j = some (k, mEnd) → j < mEnd := by
  intro fuel
  induction fuel with
  | zero => intro j h; simp [kvSearchAux] at h
  | succ fuel ih =>
    intro j h
    rw [kvSearchAux] at h
    split at h
    · exact absurd h (by simp)
    · split at h
      · rename_i r hr
        cases h
        exact kvMatchAt_lt s j k mEnd hr
      · exact Nat.lt_of_succ_lt (ih (j + 1) h)

/-- The closing-quote scan never returns an index before its start. -/
theorem extractClose_le (s : List Char) :
    ∀ fuel i idx, extractClose s fuel i = some idx → i ≤ idx := by
  intro fuel
  induction fuel with
  | zero => intro i idx h; simp [extractClose] at h
  | succ fuel ih =>
    intro i idx h
    rw [extractClose] at h
    split at h
    · exact absurd h (by simp)
    · split at h
      · have := ih (i + 2) idx h; omega
      · split at h
        · cases h; omega
        · have := ih (i + 1) idx h; omega

/-- C10: decode's last-resort text scan makes strict forward progress: a key
match found at or after `pos` ends strictly after `pos` (the failed-extraction
resume point), and when the quoted-value extractor succeeds the resume point
after the consumed value is also strictly after `pos` — so each iteration of
`scanLoopAux` strictly increases the scan position and the loop (with the fuel
the decoder supplies) can never run forever. -/
theorem c10_scan_progress (s : List Char) (pos : Nat) (key : String) (mEnd : Nat)
    (h : kvSearch s pos = some (key, mEnd)) :
    pos < mEnd ∧
      ∀ v after, extract_quoted_value s (mEnd - 1) = (some v, after) → pos < after := by
  have hlt : pos < mEnd := kvSearchAux_lt s key mEnd (s.length + 1) pos h
  refine ⟨hlt, fun v after hx => ?_⟩
  unfold extract_quoted_value at hx
  split at hx
  · exact absurd hx (by simp)
  · split at hx
    · rename_i i hi
      have := extractClose_le s (s.length + 1) (mEnd - 1 + 1) i hi
      cases hx
      omega
    · exact absurd hx (by simp)

/-- Witness for C10 at a concrete input, instantiated at the concrete extracted
value `Q` and resume position 15. -/
theorem c10_scan_progress_witness :
    (0 : Nat) < 13 ∧ (0 : Nat) < 15 := by
  have h := c10_scan_progress "\"question\": \"Q\"".data 0 "question" 13 (by decide)
  exact ⟨h.1, h.2 "Q" 15 (by decide)⟩

/-! ### Stripping lemmas -/

/-- The head of a stripped list never satisfies the stripped predicate. -/
theorem pyStripL_head_not_ws (l : List Char) (hl : 0 < (pyStripL l).length) :
    ¬ isPyWs ((pyStripL l).get ⟨0, hl⟩) := by
  have hpre : pyStripL l <+: l.dropWhile isPyWs :=
    List.rdropWhile_prefix isPyWs (l.dropWhile isPyWs)
  have hlenA : 0 < (l.dropWhile isPyWs).length :=
    Nat.lt_of_lt_of_le hl (hpre.length_le)
  have hgl : (pyStripL l).get ⟨0, hl⟩ = (l.dropWhile isPyWs).get ⟨0, hlenA⟩ := by
    simp only [List.get_eq_getElem]
    exact hpre.getElem hl
  rw [hgl]
  exact List.dropWhile_get_zero_not isPyWs l hlenA

/-- Stripping is idempotent on the left. -/
theorem pyStripL_dropWhile (l : List Char) :
    (pyStripL l).dropWhile isPyWs = pyStripL l := by
  rw [List.dropWhile_eq_self_iff]
  intro hl
  exact pyStripL_head_not_ws l hl

/-- Python stripping is idempotent. -/
theorem pyStripL_idem (l : List Char) : pyStripL (pyStripL l) = pyStripL l := by
  have h1 : pyStripL (pyStripL l) = dropTrailing isPyWs (pyStripL l) := by
    show dropTrailing isPyWs ((pyStripL l).dropWhile isPyWs) = _
    rw [pyStripL_dropWhile]
  rw [h1]
  show List.rdropWhile isPyWs (List.rdropWhile isPyWs (l.dropWhile isPyWs)) = _
  exact List.rdropWhile_idempotent _ _

/-- Python stripping is idempotent (string form). -/
theorem pyStripS_idem (s : String) : pyStripS (pyStripS s) = pyStripS s := by
  unfold pyStripS
  show String.mk (pyStripL (pyStripL s.data)) = _
  rw [pyStripL_idem]

/-- A stripped list that is all-whitespace is empty. -/
theorem pyStripL_eq_nil_of_all_ws (l : List Char) (h : (pyStripL l).all isPyWs = true) :
    pyStripL l = [] := by
  cases hx : pyStripL l with
  | nil => rfl
  | cons c t =>
    have h0 : 0 < (pyStripL l).length := by rw [hx]; simp
    have hnot := pyStripL_head_not_ws l h0
    have hc : (pyStripL l).get ⟨0, h0⟩ = c := by simp [hx]
    rw [hc] at hnot
    rw [hx] at h
    simp [List.all_cons] at h
    exact absurd h.1 hnot

/-! ### C9 (amended): shape of the diagnostic snippet -/

/-- C9, amended: whenever decode raises, the snippet it carries is the first
`min 500` characters of the original input with newlines replaced by spaces,
followed by a `...` marker when the input exceeds 500 characters; its length is
bounded by `min (len raw) 500 + 3`, and its first 500 characters are exactly
the newline-folded first characters of the input. -/
theorem c9_amended_snippet (raw : String) (style : CardStyle) (e : String)
    (h : parse_cards_json raw style = Except.error e) :
    e.data =
        (if raw.data.length > 500 then raw.data.take 500 ++ "...".data
         else raw.data).map nlToSpace ∧
      e.data.length ≤ min raw.data.length 500 + 3 ∧
      e.data.take 500 = (raw.data.take 500).map nlToSpace := by
  have he : e = snippetOf raw := by
    unfold parse_cards_json at h
    split at h
    · exact absurd h (by simp)
    · cases h; rfl
  subst he
  clear h
  refine ⟨rfl, ?_, ?_⟩
  · show (snippetOf raw).data.length ≤ min raw.data.length 500 + 3
    unfold snippetOf
    dsimp only
    generalize raw.data = d
    by_cases hl : d.length > 500
    · rw [if_pos hl]
      simp only [List.length_map, List.length_append, List.length_take,
        List.length_cons, List.length_nil]
      omega
    · rw [if_neg hl]
      simp only [List.length_map]
      omega
  · show (snippetOf raw).data.take 500 = _
    unfold snippetOf
    dsimp only
    generalize raw.data = d
    by_cases hl : d.length > 500
    · have hA : (List.map nlToSpace (d.take 500)).length = 500 := by
        simp only [List.length_map, List.length_take]
        omega
      have hAfull : List.take 500 (List.map nlToSpace (d.take 500)) =
          List.map nlToSpace (d.take 500) :=
        List.take_of_length_le (by rw [hA])
      rw [if_pos hl, List.map_append, List.take_append_eq_append_take, hA,
        Nat.sub_self, List.take_zero, List.append_nil, hAfull]
    · rw [if_neg hl]
      exact (List.map_take nlToSpace d 500).symm

/-- Witness for C9 (amended) at a concrete failing input. -/
theorem c9_amended_snippet_witness :
    ("a b" : String).data =
        (if ("a\nb" : String).data.length > 500 then ("a\nb" : String).data.take 500 ++ "...".data
         else ("a\nb" : String).data).map nlToSpace ∧
      ("a b" : String).data.length ≤ min ("a\nb" : String).data.length 500 + 3 ∧
      ("a b" : String).data.take 500 = (("a\nb" : String).data.take 500).map nlToSpace :=
  c9_amended_snippet "a\nb" CardStyle.code "a b" (by rfl)

/-! ### C3: every returned record is fully-keyed with trimmed values -/

/-- Every member of a normalized batch is `mkCard` of some raw bindings. -/
theorem mem_normalizeParsed (items : List JValue) (card : Card)
    (h : card ∈ normalizeParsed items) : ∃ kvs, card = mkCard kvs := by
  unfold normalizeParsed at h
  rw [List.mem_filterMap] at h
  obtain ⟨item, _, hf⟩ := h
  cases item <;> simp at hf
  exact ⟨_, hf.symm⟩

/-- C3: whenever decode returns, every record in the returned sequence carries
exactly the five keys `question`, `code`, `eli5`, `technical`, `answer` in
order, and every value is a string with no leading or trailing whitespace
(stripping it again changes nothing), regardless of the stage that produced
it. -/
theorem c3_records_normalized (raw : String) (style : CardStyle) (cards : List Card)
    (h : parse_cards_json raw style = Except.ok cards) :
    ∀ card ∈ cards,
      card.map Prod.fst = ["question", "code", "eli5", "technical", "answer"] ∧
        ∀ kv ∈ card, pyStripS kv.2 = kv.2 := by
  have hcards : ∃ items, cards = normalizeParsed items := by
    unfold parse_cards_json at h
    split at h
    · rename_i items _
      cases h
      exact ⟨items, rfl⟩
    · exact absurd h (by simp)
  obtain ⟨items, rfl⟩ := hcards
  intro card hc
  obtain ⟨kvs, rfl⟩ := mem_normalizeParsed items card hc
  refine ⟨rfl, ?_⟩
  intro kv hkv
  simp only [mkCard, List.mem_cons, List.not_mem_nil, or_false] at hkv
  rcases hkv with rfl | rfl | rfl | rfl | rfl
  all_goals exact pyStripS_idem _

/-- Witness for C3 at a concrete input that decodes successfully, instantiated
at its first record and that record's first key-value pair. -/
theorem c3_records_normalized_witness :
    ([("question", "Q"), ("code", ""), ("eli5", "E"), ("technical", "T"),
        ("answer", "")] : Card).map Prod.fst =
        ["question", "code", "eli5", "technical", "answer"] ∧
      pyStripS "Q" = "Q" := by
  have h := c3_records_normalized
    "[\x7b\"question\":\" Q \",\"eli5\":\"E\",\"technical\":\"T\"\x7d]"
    CardStyle.eli5_technical
    [[("question", "Q"), ("code", ""), ("eli5", "E"), ("technical", "T"), ("answer", "")]]
    (by rfl)
    [("question", "Q"), ("code", ""), ("eli5", "E"), ("technical", "T"), ("answer", "")]
    (by simp)
  exact ⟨h.1, h.2 ("question", "Q") (by simp)⟩

/-! ### C8: empty and whitespace-only inputs raise -/



/-- The working text is always the strip of something. -/
theorem fenceText_eq_pyStripL (l : List Char) : ∃ m, fenceText l = pyStripL m := by
  unfold fenceText
  cases h : fenceGroup1 (pyStripL l) with
  | some g => exact ⟨g, by simp [h]⟩
  | none => exact ⟨l, by simp [h]⟩

/-- A list of whitespace characters strips to nothing. -/
theorem pyStripL_of_all_ws (l : List Char) (h : l.all isPyWs = true) :
    pyStripL l = [] := by
  apply pyStripL_eq_nil_of_all_ws
  rw [List.all_eq_true] at h ⊢
  intro x hx
  apply h
  have h1 : pyStripL l <+: l.dropWhile isPyWs :=
    List.rdropWhile_prefix isPyWs (l.dropWhile isPyWs)
  have h2 := (List.dropWhile_suffix isPyWs (l := l))
  exact h2.subset (h1.subset hx)

/-- C8: decode raises on the empty input, on any whitespace-only input, and on
any input whose working text after fence stripping is empty or whitespace-only
— for both styles. -/
theorem c8_whitespace_raises (raw : String) (style : CardStyle)
    (h : raw.data.all isPyWs = true ∨ (fenceText raw.data).all isPyWs = true) :
    decodeFails (parse_cards_json raw style) = true := by
  have htext : fenceText raw.data = [] := by
    rcases h with h | h
    · have h1 : pyStripL raw.data = [] := pyStripL_of_all_ws raw.data h
      unfold fenceText
      rw [h1]
      rfl
    · obtain ⟨m, hm⟩ := fenceText_eq_pyStripL raw.data
      rw [hm] at h ⊢
      exact pyStripL_eq_nil_of_all_ws m h
  unfold parse_cards_json
  rw [htext]
  cases style <;> rfl

/-- Witness for C8 at a concrete whitespace-only input. -/
theorem c8_whitespace_raises_witness :
    decodeFails (parse_cards_json "  \n " CardStyle.eli5_technical) = true :=
  c8_whitespace_raises "  \n " CardStyle.eli5_technical (Or.inl (by decide))

/-! ### C2: well-formed arrays in the requested style decode exactly -/



/-- Normalization acts pointwise on style-shaped records. -/
theorem normalizeParsed_map_styleObj (style : CardStyle)
    (objs : List (String × String × String)) :
    normalizeParsed (objs.map (styleObj style)) = objs.map (styleCard style) := by
  induction objs with
  | nil => rfl
  | cons o rest ih =>
    rcases o with ⟨q, e, t⟩
    cases style
    case eli5_technical =>
      show mkCard [("question", JValue.str q), ("eli5", JValue.str e),
          ("technical", JValue.str t)] ::
          normalizeParsed (rest.map (styleObj CardStyle.eli5_technical)) = _
      rw [ih]
      rfl
    case code =>
      show mkCard [("question", JValue.str q), ("code", JValue.str e),
          ("answer", JValue.str t)] ::
          normalizeParsed (rest.map (styleObj CardStyle.code)) = _
      rw [ih]
      rfl

/-- When strict parsing succeeds with an array (which is never Python `None`),
the cascade returns its element list. -/
theorem stagesParse_of_loads_arr (text : List Char) (style : CardStyle)
    (items : List JValue) (h : jsonLoadsL text = some (JValue.arr items)) :
    stagesParse text style = some items := by
  unfold stagesParse
  rw [h]
  rfl

/-- C2: for every input whose working text is a well-formed JSON array of
objects carrying the requested style's field set (string values), decode
returns one record per object, in input order, each with all five normalized
keys and each style field equal to its original value trimmed of surrounding
whitespace. -/
theorem c2_strict_array_decodes (raw : String) (style : CardStyle)
    (objs : List (String × String × String))
    (h : jsonLoadsL (fenceText raw.data) = some (JValue.arr (objs.map (styleObj style)))) :
    parse_cards_json raw style = Except.ok (objs.map (styleCard style)) := by
  unfold parse_cards_json
  rw [stagesParse_of_loads_arr _ style _ h]
  show Except.ok (normalizeParsed (objs.map (styleObj style))) = _
  rw [normalizeParsed_map_styleObj]

/-- Witness for C2 at a concrete well-formed array (note the value trimming). -/
theorem c2_strict_array_decodes_witness :
    parse_cards_json "[\x7b\"question\":\" Q \",\"eli5\":\"E\",\"technical\":\"T\"\x7d]"
        CardStyle.eli5_technical =
      Except.ok ([(" Q ", "E", "T")].map (styleCard CardStyle.eli5_technical)) :=
  c2_strict_array_decodes _ CardStyle.eli5_technical [(" Q ", "E", "T")] (by rfl)

/-! ### C1 (amended): decode raises exactly when every stage fails to parse -/

/-- The late stages fail exactly when (for the eli5 style) both the flat merge
and the text scan fail. -/
theorem lateStages_eq_none_iff (text : List Char) (style : CardStyle) :
    lateStages text style = none ↔
      (style = CardStyle.eli5_technical →
        parse_flat_key_value_array text = none ∧
          parse_array_like_key_value_text text = none) := by
  unfold lateStages
  cases style with
  | eli5_technical =>
    cases h1 : parse_flat_key_value_array text with
    | some items => simp [h1]
    | none =>
      cases h2 : parse_array_like_key_value_text text with
      | some items => simp [h1, h2]
      | none => simp [h1, h2]
  | code => simp

/-- C1, amended: decode raises exactly when no stage produces a parse result
other than JSON `null` (Python `None`): the strict parse throws or yields
`null`; when (and only when) it throws, the bracket-scan parse on the sliced
text throws or yields `null`, and when that too throws (eli5 style) the repair
parse throws or yields `null`; and (eli5 style) the flat merge and the text
scan both fail.  When some stage parses to anything but `null`, decode
returns, even when the parse yields zero records or only records with empty
fields. -/
theorem c1_amended_error_iff (raw : String) (style : CardStyle) :
    decodeFails (parse_cards_json raw style) = true ↔
      ((jsonLoadsL (fenceText raw.data) = none ∨
          jsonLoadsL (fenceText raw.data) = some JValue.null) ∧
        (jsonLoadsL (fenceText raw.data) = none →
          ∀ sub, bracketSlice (fenceText raw.data) = some sub →
            (jsonLoadsL sub = none ∨ jsonLoadsL sub = some JValue.null) ∧
              (jsonLoadsL sub = none → style = CardStyle.eli5_technical →
                ∀ rep, repair_array_of_objects sub = some rep →
                  (jsonLoadsL rep = none ∨ jsonLoadsL rep = some JValue.null))) ∧
        (style = CardStyle.eli5_technical →
          parse_flat_key_value_array (fenceText raw.data) = none ∧
            parse_array_like_key_value_text (fenceText raw.data) = none)) := by
  have hiff : decodeFails (parse_cards_json raw style) = true ↔
      stagesParse (fenceText raw.data) style = none := by
    unfold parse_cards_json
    cases h : stagesParse (fenceText raw.data) style <;> simp [decodeFails]
  rw [hiff]
  unfold stagesParse
  cases h1 : jsonLoadsL (fenceText raw.data) with
  | some v =>
    cases v with
    | null => simp [lateStages_eq_none_iff]
    | bool b => simp
    | numInt n => simp
    | numFloat lex => simp
    | str s => simp
    | arr items => simp
    | obj entries => simp
  | none =>
    cases h2 : bracketSlice (fenceText raw.data) with
    | none => simp [lateStages_eq_none_iff]
    | some sub =>
      cases h3 : jsonLoadsL sub with
      | some w =>
        cases w with
        | null => simp [h3, lateStages_eq_none_iff]
        | bool b => simp [h3]
        | numInt n => simp [h3]
        | numFloat lex => simp [h3]
        | str s => simp [h3]
        | arr items => simp [h3]
        | obj entries => simp [h3]
      | none =>
        cases style with
        | eli5_technical =>
          cases h4 : repair_array_of_objects sub with
          | none => simp [h3, h4, lateStages_eq_none_iff]
          | some rep =>
            cases h5 : jsonLoadsL rep with
            | none => simp [h3, h4, h5, lateStages_eq_none_iff]
            | some u =>
              cases u with
              | null => simp [h3, h4, h5, lateStages_eq_none_iff]
              | bool b => simp [h3, h4, h5]
              | numInt n => simp [h3, h4, h5]
              | numFloat lex => simp [h3, h4, h5]
              | str s => simp [h3, h4, h5]
              | arr items => simp [h3, h4, h5]
              | obj entries => simp [h3, h4, h5]
        | code => simp [h3, lateStages_eq_none_iff]

/-! ### C6: fence-wrapped input decodes like its inner content -/



/-- Two inputs with the same working text decode to agreeing results. -/
theorem decode_agree_of_fenceText_eq (r1 r2 : String) (style : CardStyle)
    (h : fenceText r1.data = fenceText r2.data) :
    decodeResultsAgree (parse_cards_json r1 style) (parse_cards_json r2 style) := by
  unfold parse_cards_json
  rw [h]
  cases hs : stagesParse (fenceText r2.data) style <;> simp [decodeResultsAgree]

/-- A triple-free list stays triple-free after dropping its head. -/
theorem splitAtTriple_cons_none {c : Char} {rest : List Char}
    (h : splitAtTriple (c :: rest) = none) : splitAtTriple rest = none := by
  cases hx : splitAtTriple rest with
  | none => rfl
  | some p =>
    rw [splitAtTriple, hx] at h
    by_cases hs : startsTk (c :: rest) = true <;> simp [hs] at h

/-- Triple-freeness passes to any suffix. -/
theorem splitAtTriple_none_append_right {a l : List Char}
    (h : splitAtTriple (a ++ l) = none) : splitAtTriple l = none := by
  induction a with
  | nil => exact h
  | cons c a ih => exact ih (splitAtTriple_cons_none h)

/-- The triple-at-the-front test only inspects the first three characters. -/
theorem startsTk_tail_irrel (c d e : Char) (rest rest' : List Char) :
    startsTk (c :: d :: e :: rest) = startsTk (c :: d :: e :: rest') := rfl

/-- Triple-freeness passes to any prefix. -/
theorem splitAtTriple_none_append_left {l b : List Char}
    (h : splitAtTriple (l ++ b) = none) : splitAtTriple l = none := by
  induction l with
  | nil => rfl
  | cons c rest ih =>
    have h1 : splitAtTriple (rest ++ b) = none := splitAtTriple_cons_none h
    have hs : startsTk (c :: (rest ++ b)) = false := by
      cases hx : startsTk (c :: (rest ++ b))
      · rfl
      · rw [List.cons_append, splitAtTriple] at h
        simp [hx] at h
    have hs' : startsTk (c :: rest) = false := by
      cases rest with
      | nil => rfl
      | cons d rest2 =>
        cases rest2 with
        | nil => rfl
        | cons e rest3 =>
          rw [show startsTk (c :: d :: e :: rest3) =
                startsTk (c :: d :: e :: (rest3 ++ b)) from rfl]
          exact hs
    rw [splitAtTriple]
    simp only [hs', Bool.false_eq_true, if_false, ih h1]

/-- Stripping preserves triple-freeness. -/
theorem splitAtTriple_pyStripL_none {l : List Char}
    (h : splitAtTriple l = none) : splitAtTriple (pyStripL l) = none := by
  obtain ⟨a, ha⟩ := List.dropWhile_suffix (l := l) isPyWs
  have hd : splitAtTriple (l.dropWhile isPyWs) = none :=
    splitAtTriple_none_append_right (ha ▸ h)
  obtain ⟨t, ht⟩ := List.rdropWhile_prefix isPyWs (l.dropWhile isPyWs)
  exact splitAtTriple_none_append_left (ht ▸ hd)

/-- A triple-free working text keeps the fence stage inert. -/
theorem fenceText_of_no_triple (l : List Char) (h : splitAtTriple l = none) :
    fenceText l = pyStripL l := by
  have h5 := splitAtTriple_pyStripL_none h
  unfold fenceText fenceGroup1
  dsimp only
  rw [h5]

/-- Appending a newline-guarded closing fence to a triple-free list puts the
first (and only) triple at the very end. -/
theorem splitAtTriple_append_fence {a : List Char} (h : splitAtTriple a = none) :
    splitAtTriple (a ++ '\n' :: btick :: btick :: btick :: []) =
      some (a ++ ['\n'], []) := by
  induction a with
  | nil => rfl
  | cons c a ih =>
    have ha : splitAtTriple a = none := splitAtTriple_cons_none h
    have hsf : startsTk (c :: (a ++ '\n' :: btick :: btick :: btick :: [])) = false := by
      cases a with
      | nil =>
        exact decide_eq_false fun hc => absurd hc.2.1 (by decide)
      | cons d a2 =>
        cases a2 with
        | nil => exact decide_eq_false fun hc => absurd hc.2.2 (by decide)
        | cons e a3 =>
          simp only [List.cons_append]
          rw [show startsTk (c :: d :: e :: (a3 ++ '\n' :: btick :: btick :: btick :: [])) =
                startsTk (c :: d :: e :: a3) from rfl]
          cases hx : startsTk (c :: d :: e :: a3)
          · rfl
          · rw [splitAtTriple] at h
            simp [hx] at h
    rw [List.cons_append, splitAtTriple]
    simp only [hsf, Bool.false_eq_true, if_false, ih ha]
    rfl

/-- The fence-wrapped text is already stripped (it begins and ends with a
backtick). -/
theorem pyStripL_wrap (s : List Char) :
    pyStripL (([btick, btick, btick, 'j', 's', 'o', 'n', '\n'] : List Char) ++ s ++
        ['\n', btick, btick, btick]) =
      ([btick, btick, btick, 'j', 's', 'o', 'n', '\n'] : List Char) ++ s ++
        ['\n', btick, btick, btick] := by
  have h1 : (([btick, btick, btick, 'j', 's', 'o', 'n', '\n'] : List Char) ++ s ++
      ['\n', btick, btick, btick]).dropWhile isPyWs =
      ([btick, btick, btick, 'j', 's', 'o', 'n', '\n'] : List Char) ++ s ++
        ['\n', btick, btick, btick] := by
    show List.dropWhile isPyWs (btick ::
        (([btick, btick, 'j', 's', 'o', 'n', '\n'] : List Char) ++ s ++
          ['\n', btick, btick, btick])) = _
    rw [List.dropWhile_cons_of_neg (by decide)]
    rfl
  have hshape : ([btick, btick, btick, 'j', 's', 'o', 'n', '\n'] : List Char) ++ s ++
      ['\n', btick, btick, btick] =
      (([btick, btick, btick, 'j', 's', 'o', 'n', '\n'] : List Char) ++ s ++
        ['\n', btick, btick]) ++ [btick] := by
    rw [List.append_assoc (([btick, btick, btick, 'j', 's', 'o', 'n', '\n'] : List Char) ++ s)]
    rfl
  have h2 : List.rdropWhile isPyWs
      (([btick, btick, btick, 'j', 's', 'o', 'n', '\n'] : List Char) ++ s ++
        ['\n', btick, btick, btick]) =
      ([btick, btick, btick, 'j', 's', 'o', 'n', '\n'] : List Char) ++ s ++
        ['\n', btick, btick, btick] := by
    rw [hshape]
    exact List.rdropWhile_concat_neg isPyWs _ btick (by decide)
  unfold pyStripL
  rw [h1]
  exact h2

/-- The fence capture group of the wrapped text is exactly the stripped inner
content. -/
theorem fenceGroup1_wrap (s : List Char) (h : splitAtTriple s = none) :
    fenceGroup1 (([btick, btick, btick, 'j', 's', 'o', 'n', '\n'] : List Char) ++ s ++
        ['\n', btick, btick, btick]) = some (pyStripL s) := by
  have hsplit : splitAtTriple
      (([btick, btick, btick, 'j', 's', 'o', 'n', '\n'] : List Char) ++ s ++
        ['\n', btick, btick, btick]) =
      some ([], 'j' :: 's' :: 'o' :: 'n' :: '\n' :: (s ++ ['\n', btick, btick, btick])) := by
    rfl
  unfold fenceGroup1
  rw [hsplit]
  show (match splitAtTriple (List.dropWhile isPyWs
      (dropJsonTag ('j' :: 's' :: 'o' :: 'n' :: '\n' :: (s ++ ['\n', btick, btick, btick])))) with
    | none => none
    | some (mid, _) => some (dropTrailing isPyWs mid)) = some (pyStripL s)
  rw [show dropJsonTag ('j' :: 's' :: 'o' :: 'n' :: '\n' :: (s ++ ['\n', btick, btick, btick])) =
      '\n' :: (s ++ ['\n', btick, btick, btick]) from rfl]
  rw [List.dropWhile_cons_of_pos (by decide)]
  rw [List.dropWhile_append]
  by_cases he : (s.dropWhile isPyWs).isEmpty = true
  · rw [if_pos he]
    have hnil : s.dropWhile isPyWs = [] := by
      cases hx : s.dropWhile isPyWs
      · rfl
      · rw [hx] at he; simp at he
    show some (dropTrailing isPyWs []) = some (pyStripL s)
    unfold pyStripL
    rw [hnil]
  · rw [if_neg he]
    have hd : splitAtTriple (s.dropWhile isPyWs) = none := by
      obtain ⟨a, ha⟩ := List.dropWhile_suffix (l := s) isPyWs
      exact splitAtTriple_none_append_right (ha ▸ h)
    rw [show (['\n', btick, btick, btick] : List Char) =
        '\n' :: btick :: btick :: btick :: [] from rfl,
      splitAtTriple_append_fence hd]
    show some (dropTrailing isPyWs (s.dropWhile isPyWs ++ ['\n'])) = some (pyStripL s)
    have : dropTrailing isPyWs (s.dropWhile isPyWs ++ ['\n']) = pyStripL s := by
      show List.rdropWhile isPyWs (s.dropWhile isPyWs ++ ['\n']) = pyStripL s
      rw [show (['\n'] : List Char) = [('\n' : Char)] from rfl]
      rw [List.rdropWhile_concat_pos isPyWs (s.dropWhile isPyWs) '\n' (by decide)]
      rfl
    rw [this]

/-- The working text of the fence-wrapped input is the stripped inner content. -/
theorem fenceText_wrap (s : List Char) (h : splitAtTriple s = none) :
    fenceText (([btick, btick, btick, 'j', 's', 'o', 'n', '\n'] : List Char) ++ s ++
        ['\n', btick, btick, btick]) = pyStripL s := by
  unfold fenceText
  dsimp only
  rw [pyStripL_wrap, fenceGroup1_wrap s h]
  exact pyStripL_idem s

/-- C6: for every text containing no triple-backtick sequence and every style,
decoding the fence-wrapped input yields the same result as decoding the text
itself — the same record sequence, or failure in both cases (the failure's
diagnostic snippet cites the respective original input, and the spec treats
the decoder's result as the record sequence or the typed failure). -/
theorem c6_fence_wrap_agrees (s : String) (style : CardStyle)
    (h : hasTriple s.data = false) :
    decodeResultsAgree
      (parse_cards_json ("```json\n" ++ s ++ "\n```") style)
      (parse_cards_json s style) := by
  have hnone : splitAtTriple s.data = none := by
    unfold hasTriple at h
    cases hx : splitAtTriple s.data
    · rfl
    · rw [hx] at h; simp at h
  apply decode_agree_of_fenceText_eq
  rw [String.data_append, String.data_append,
    show ("```json\n" : String).data =
      ([btick, btick, btick, 'j', 's', 'o', 'n', '\n'] : List Char) from by decide,
    show ("\n```" : String).data = (['\n', btick, btick, btick] : List Char) from by decide,
    fenceText_wrap s.data hnone, fenceText_of_no_triple s.data hnone]

/-- Witness for C6 at a concrete fence-free inner text. -/
theorem c6_fence_wrap_agrees_witness :
    decodeResultsAgree
      (parse_cards_json
        ("```json\n" ++ "[\x7b\"question\":\"Q\",\"eli5\":\"E\",\"technical\":\"T\"\x7d]" ++ "\n```")
        CardStyle.eli5_technical)
      (parse_cards_json "[\x7b\"question\":\"Q\",\"eli5\":\"E\",\"technical\":\"T\"\x7d]"
        CardStyle.eli5_technical) :=
  c6_fence_wrap_agrees "[\x7b\"question\":\"Q\",\"eli5\":\"E\",\"technical\":\"T\"\x7d]"
    CardStyle.eli5_technical (by decide)

/-- Witness for C1 (amended): a concrete input on which every stage fails and
decode accordingly raises, obtained through the equivalence. -/
theorem c1_amended_error_iff_witness :
    decodeFails (parse_cards_json "zzz" CardStyle.code) = true := by
  rw [c1_amended_error_iff]
  refine ⟨Or.inl (by rfl), ?_, ?_⟩
  · intro _ sub hsub
    rw [show bracketSlice (fenceText ("zzz" : String).data) = none from rfl] at hsub
    exact Option.noConfusion hsub
  · intro hstyle
    exact CardStyle.noConfusion hstyle
